import Mathlib

/-!
Verification of the Ragged Multi-Hot Batch Codec described by the
NVTabular example-notebook repository's specification.

The repository itself is a corpus of example notebooks; the codec logic
(ragged encoder/decoder, batch assembler) is invoked through the external
`nvtabular` dataloader and inference-toolkit libraries, whose source is not
part of the repository.  Following the spec (§2–§4, §6–§8), the codec is
modelled here as pure functions on plain lists.  The concrete tensor data
recorded in the notebooks (the PyTorch multi-hot batch output and the
Triton `genres__values` / `genres__nnzs` response) anchors the model to
the behaviour the notebooks actually exhibit.
-/

namespace RaggedCodec

/-- Error taxonomy of the codec (spec §7): `InvalidInput` (row count
mismatch), `MalformedOffsets` (offsets invariant violated),
`SchemaMismatch` (declared columns absent or inconsistent row counts). -/
inductive CodecError where
  | InvalidInput
  | MalformedOffsets
  | SchemaMismatch
deriving Repr, DecidableEq

/-- A RaggedColumn (spec §3): the batch-level encoding of one ragged field
across all B rows: `values` (flat ordered sequence of integers) and
`offsets` (ordered sequence of B+1 non-decreasing integers). -/
structure RaggedColumn where
  values : List Int
  offsets : List Nat
deriving Repr, DecidableEq

/-- Modelled from the spec: the Ragged Encoder's offsets construction
(spec §4.1, the encoder lives in the external dataloader, absent from the
repository's own source): iterate rows in order, appending the running
total length after each row, starting with `offsets[0] = 0`.
`offsetsFrom start rows` is the offsets list produced once the running
total has reached `start`. -/
def offsetsFrom (start : Nat) : List (List Int) → List Nat
  | [] => [start]
  | r :: rs => start :: offsetsFrom (start + r.length) rs

/-- Modelled from the spec: the Ragged Encoder (spec §4.1, external to the
repository's source): append each row's elements, in order, to `values`;
offsets record the running totals.  No sorting, no deduplication. -/
def encode (rows : List (List Int)) : RaggedColumn :=
  { values := rows.flatten, offsets := offsetsFrom 0 rows }

/-- Modelled from the spec: the Ragged Encoder's input validation
(spec §4.1): fails with `InvalidInput` if the row count does not match the
expected batch size `B` declared by the caller. -/
def encodeChecked (B : Nat) (rows : List (List Int)) :
    Except CodecError RaggedColumn :=
  if rows.length == B then .ok (encode rows) else .error .InvalidInput

/-- `values[a:b]` — the slice of `values` from index `a` (inclusive) to
`b` (exclusive), as used by the decoder (spec §4.2). -/
def slice (values : List Int) (a b : Nat) : List Int :=
  (values.drop a).take (b - a)

/-- Row reconstruction loop of the Ragged Decoder (spec §4.2): for each
consecutive pair of offsets, emit the corresponding slice of `values`. -/
def decodeLoop (vs : List Int) : List Nat → List (List Int)
  | a :: b :: rest => slice vs a b :: decodeLoop vs (b :: rest)
  | _ => []

/-- Boolean check that a list of naturals is non-decreasing. -/
def nondecreasing : List Nat → Bool
  | a :: b :: rest => decide (a ≤ b) && nondecreasing (b :: rest)
  | _ => true

/-- Modelled from the spec: the Ragged Decoder's validation (spec §4.2):
`offsets` must have length B+1, be non-decreasing, and end with
`len(values)`. -/
def offsetsValid (B : Nat) (c : RaggedColumn) : Bool :=
  (c.offsets.length == B + 1) && nondecreasing c.offsets &&
    (c.offsets.getLastD 0 == c.values.length)

/-- Modelled from the spec: the Ragged Decoder (spec §4.2, external to the
repository's source): for row `i` in `[0,B)`, slice
`values[offsets[i]:offsets[i+1]]`; fails with `MalformedOffsets` if the
offsets invariant is violated. -/
def decode (B : Nat) (c : RaggedColumn) :
    Except CodecError (List (List Int)) :=
  if offsetsValid B c then .ok (decodeLoop c.values c.offsets)
  else .error .MalformedOffsets

/-! ### Structural lemmas about the offsets scan -/

theorem offsetsFrom_ne_nil (start : Nat) (rows : List (List Int)) :
    offsetsFrom start rows ≠ [] := by
  cases rows <;> simp [offsetsFrom]

theorem offsetsFrom_head (start : Nat) (rows : List (List Int)) :
    ∃ t, offsetsFrom start rows = start :: t := by
  cases rows <;> exact ⟨_, rfl⟩

theorem offsetsFrom_length (start : Nat) (rows : List (List Int)) :
    (offsetsFrom start rows).length = rows.length + 1 := by
  induction rows generalizing start with
  | nil => rfl
  | cons r rs ih => simp [offsetsFrom, ih]

theorem nondecreasing_offsetsFrom (start : Nat) (rows : List (List Int)) :
    nondecreasing (offsetsFrom start rows) = true := by
  induction rows generalizing start with
  | nil => rfl
  | cons r rs ih =>
    obtain ⟨t, ht⟩ := offsetsFrom_head (start + r.length) rs
    simp only [offsetsFrom, ht, nondecreasing, Bool.and_eq_true, decide_eq_true_eq]
    exact ⟨Nat.le_add_right _ _, by rw [← ht]; exact ih _⟩

theorem offsetsFrom_getLastD (start d : Nat) (rows : List (List Int)) :
    (offsetsFrom start rows).getLastD d = start + (rows.map List.length).sum := by
  induction rows generalizing start d with
  | nil => simp [offsetsFrom]
  | cons r rs ih =>
    obtain ⟨t, ht⟩ := offsetsFrom_head (start + r.length) rs
    simp only [offsetsFrom, List.map_cons, List.sum_cons]
    rw [List.getLastD_cons, ih]
    omega

theorem drop_join_of_drop (rows : List (List Int)) (vs : List Int)
    (start : Nat) (h : vs.drop start = rows.flatten) :
    decodeLoop vs (offsetsFrom start rows) = rows := by
  induction rows generalizing start with
  | nil => cases vs <;> rfl
  | cons r rs ih =>
    obtain ⟨t, ht⟩ := offsetsFrom_head (start + r.length) rs
    have hslice : slice vs start (start + r.length) = r := by
      simp only [slice, h, List.flatten_cons, Nat.add_sub_cancel_left]
      exact List.take_left r rs.flatten
    have hdrop : vs.drop (start + r.length) = rs.flatten := by
      rw [← List.drop_drop, h, List.flatten_cons]
      exact List.drop_left r rs.flatten
    simp only [offsetsFrom, ht, decodeLoop]
    rw [hslice, ← ht, ih _ hdrop]

theorem decodeLoop_encode (rows : List (List Int)) :
    decodeLoop rows.flatten (offsetsFrom 0 rows) = rows :=
  drop_join_of_drop rows rows.flatten 0 (by simp)

theorem offsetsValid_encode (rows : List (List Int)) :
    offsetsValid rows.length (encode rows) = true := by
  simp only [offsetsValid, encode, Bool.and_eq_true, beq_iff_eq]
  refine ⟨⟨offsetsFrom_length 0 rows, nondecreasing_offsetsFrom 0 rows⟩, ?_⟩
  rw [offsetsFrom_getLastD, List.length_flatten]
  simp

/-- C1: For every ordered sequence of B per-row integer lists (each list
possibly empty, lists of length > 1 allowed), decoding the encoder's
output returns exactly the input sequence: `decode(encode(rows)) = rows`,
with each row's element order and multiplicity preserved. -/
theorem decode_encode_roundtrip (rows : List (List Int)) :
    decode rows.length (encode rows) = .ok rows := by
  rw [decode, if_pos (offsetsValid_encode rows)]
  exact congrArg Except.ok (decodeLoop_encode rows)

theorem nondecreasing_getD (l : List Nat) (h : nondecreasing l = true) :
    ∀ i, i + 1 < l.length → l.getD i 0 ≤ l.getD (i + 1) 0 := by
  induction l with
  | nil => intro i hi; simp at hi
  | cons a l ih =>
    cases l with
    | nil => intro i hi; simp at hi
    | cons b rest =>
      simp only [nondecreasing, Bool.and_eq_true, decide_eq_true_eq] at h
      intro i hi
      cases i with
      | zero => exact h.1
      | succ j =>
        simp only [List.getD_cons_succ]
        exact ih h.2 j (by simpa using hi)

theorem offsetsFrom_getD_last (start d : Nat) (rows : List (List Int)) :
    (offsetsFrom start rows).getD rows.length d =
      start + (rows.map List.length).sum := by
  induction rows generalizing start d with
  | nil => simp [offsetsFrom]
  | cons r rs ih =>
    simp only [offsetsFrom, List.length_cons, List.getD_cons_succ,
      List.map_cons, List.sum_cons, ih]
    omega

/-- C2: For every RaggedColumn produced by the encoder from B rows, the
offsets sequence has exactly B+1 entries, is monotonically non-decreasing,
starts with `offsets[0] = 0`, and ends with `offsets[B] = len(values)`. -/
theorem encode_offsets_wellformed (rows : List (List Int)) :
    (encode rows).offsets.length = rows.length + 1 ∧
    (∀ i, i + 1 < (encode rows).offsets.length →
      (encode rows).offsets.getD i 0 ≤ (encode rows).offsets.getD (i + 1) 0) ∧
    (encode rows).offsets.getD 0 0 = 0 ∧
    (encode rows).offsets.getD rows.length 0 = (encode rows).values.length := by
  refine ⟨offsetsFrom_length 0 rows,
    nondecreasing_getD _ (nondecreasing_offsetsFrom 0 rows), ?_, ?_⟩
  · obtain ⟨t, ht⟩ := offsetsFrom_head 0 rows
    simp [encode, ht]
  · show (offsetsFrom 0 rows).getD rows.length 0 = rows.flatten.length
    rw [offsetsFrom_getD_last, List.length_flatten]
    exact Nat.zero_add _

/-- Closed-form instance of `encode_offsets_wellformed`, evaluating the
monotonicity clause at the batch `[[6,9],[2],[18,9,16]]`, index 1. -/
theorem encode_offsets_wellformed_witness :
    (encode [[(6 : Int), 9], [2], [18, 9, 16]]).offsets.getD 1 0 ≤
      (encode [[(6 : Int), 9], [2], [18, 9, 16]]).offsets.getD 2 0 :=
  (encode_offsets_wellformed [[(6 : Int), 9], [2], [18, 9, 16]]).2.1 1
    (by decide)

/-- C3: Encoding the specific input rows `[[6,9],[2],[18,9,16]]` with B=3
produces `values = [6,9,2,18,9,16]` and `offsets = [0,2,3,6]` (spec §8
Scenario A); decoding that output returns the input (Scenario C). -/
theorem scenario_A_encode :
    encode [[(6 : Int), 9], [2], [18, 9, 16]] =
      { values := [6, 9, 2, 18, 9, 16], offsets := [0, 2, 3, 6] } ∧
    decode 3 (encode [[(6 : Int), 9], [2], [18, 9, 16]]) =
      .ok [[6, 9], [2], [18, 9, 16]] := by
  exact ⟨rfl, rfl⟩

/-- C4: The decoder fails with `MalformedOffsets` exactly when the offsets
sequence has length ≠ B+1, is not non-decreasing, or its final value
differs from `len(values)`; in particular, decoding with
`offsets = [0,2,3]` and B=3 fails with `MalformedOffsets`. -/
theorem decode_malformed_iff :
    (∀ (B : Nat) (c : RaggedColumn),
      decode B c = .error CodecError.MalformedOffsets ↔
        (c.offsets.length ≠ B + 1 ∨ nondecreasing c.offsets = false ∨
          c.offsets.getLastD 0 ≠ c.values.length)) ∧
    decode 3 ⟨[6, 9, 2, 18, 9, 16], [0, 2, 3]⟩ =
      .error CodecError.MalformedOffsets := by
  refine ⟨?_, rfl⟩
  intro B c
  by_cases h : offsetsValid B c = true
  · rw [decode, if_pos h]
    simp only [offsetsValid, Bool.and_eq_true, beq_iff_eq] at h
    obtain ⟨⟨h1, h2⟩, h3⟩ := h
    constructor
    · intro hco; simp at hco
    · rintro (h' | h' | h')
      · exact absurd h1 h'
      · rw [h2] at h'; cases h'
      · exact absurd h3 h'
  · rw [decode, if_neg h]
    simp only [offsetsValid, Bool.and_eq_true, beq_iff_eq, not_and,
      Bool.not_eq_true] at h
    constructor
    · intro _
      by_cases h1 : c.offsets.length = B + 1
      · by_cases h2 : nondecreasing c.offsets = true
        · exact Or.inr (Or.inr (h ⟨h1, h2⟩))
        · exact Or.inr (Or.inl (by simpa using h2))
      · exact Or.inl h1
    · intro _; rfl

/-- C5: For every encoder input, the length of the produced values array
equals the sum of the lengths of the per-row input lists. -/
theorem encode_length_conservation (rows : List (List Int)) :
    (encode rows).values.length = (rows.map List.length).sum := by
  simp [encode, List.length_flatten]

/-- C7: The encoder fails with `InvalidInput` exactly when the number of
input rows differs from the batch size B declared by the caller; for every
input with exactly B rows it succeeds. -/
theorem encodeChecked_invalid_iff (B : Nat) (rows : List (List Int)) :
    (encodeChecked B rows = .error CodecError.InvalidInput ↔
      rows.length ≠ B) ∧
    (rows.length = B → encodeChecked B rows = .ok (encode rows)) := by
  constructor
  · by_cases h : rows.length = B
    · rw [encodeChecked, if_pos (by simpa using h)]
      simp [h]
    · rw [encodeChecked, if_neg (by simpa using h)]
      simp [h]
  · intro h
    rw [encodeChecked, if_pos (by simpa using h)]

/-- Closed-form instance of `encodeChecked_invalid_iff`: with B = 3 and a
3-row input the encoder succeeds. -/
theorem encodeChecked_invalid_iff_witness :
    encodeChecked 3 [[(6 : Int), 9], [2], [18, 9, 16]] =
      .ok (encode [[(6 : Int), 9], [2], [18, 9, 16]]) :=
  (encodeChecked_invalid_iff 3 [[(6 : Int), 9], [2], [18, 9, 16]]).2 rfl

/-- Modelled from the spec: the PyTorch dataloader's multi-hot batch
representation, recorded in the notebook's `batch` output (the dataloader
itself is external to the repository's source): the per-row boundary
tensor `nnzs` holds one starting offset per row (shape [B, 1]). -/
def startsFrom (start : Nat) : List (List Int) → List Nat
  | [] => []
  | r :: rs => start :: startsFrom (start + r.length) rs

/-- Row reconstruction for the B-entry starting-offset representation:
row i is `values[starts[i] : starts[i+1]]`, and the final row extends from
its start to the end of `values`. -/
def decodeStartsLoop (vs : List Int) : List Nat → List (List Int)
  | [] => []
  | [a] => [vs.drop a]
  | a :: b :: rest => slice vs a b :: decodeStartsLoop vs (b :: rest)

theorem startsFrom_length (start : Nat) (rows : List (List Int)) :
    (startsFrom start rows).length = rows.length := by
  induction rows generalizing start with
  | nil => rfl
  | cons r rs ih => simp [startsFrom, ih]

theorem decodeStartsLoop_startsFrom (rows : List (List Int)) (vs : List Int)
    (start : Nat) (h : vs.drop start = rows.flatten) :
    decodeStartsLoop vs (startsFrom start rows) = rows := by
  induction rows generalizing start with
  | nil => rfl
  | cons r rs ih =>
    cases rs with
    | nil =>
      show [vs.drop start] = [r]
      rw [h]
      simp
    | cons r2 rs2 =>
      have hslice : slice vs start (start + r.length) = r := by
        simp only [slice, h, List.flatten_cons, Nat.add_sub_cancel_left]
        exact List.take_left r (r2 :: rs2).flatten
      have hdrop : vs.drop (start + r.length) = (r2 :: rs2).flatten := by
        rw [← List.drop_drop, h, List.flatten_cons]
        exact List.drop_left r (r2 :: rs2).flatten
      show slice vs start (start + r.length) ::
          decodeStartsLoop vs (startsFrom (start + r.length) (r2 :: rs2)) =
          r :: (r2 :: rs2)
      rw [hslice, ih _ hdrop]

/-- C10: In the batch actually yielded to the model for a multi-hot
column, the per-row boundary tensor has exactly B entries (one start index
per row) rather than B+1: its first entry is 0, row i occupies
`values[boundary[i] : boundary[i+1]]` for i < B-1, the last row extends
from `boundary[B-1]` to `len(values)`, and `len(values)` may strictly
exceed the last boundary entry (witnessed at `[[6,9],[2],[18,9,16]]`,
whose starts are `[0,2,3]` against 6 values). -/
theorem torch_multihot_representation (rows : List (List Int)) :
    (startsFrom 0 rows).length = rows.length ∧
    (rows ≠ [] → (startsFrom 0 rows).head? = some 0) ∧
    decodeStartsLoop rows.flatten (startsFrom 0 rows) = rows ∧
    startsFrom 0 [[(6 : Int), 9], [2], [18, 9, 16]] = [0, 2, 3] ∧
    (startsFrom 0 [[(6 : Int), 9], [2], [18, 9, 16]]).getLastD 0 <
      ([[(6 : Int), 9], [2], [18, 9, 16]].flatten).length := by
  refine ⟨startsFrom_length 0 rows, ?_,
    decodeStartsLoop_startsFrom rows rows.flatten 0 (by simp), rfl, by decide⟩
  intro hne
  cases rows with
  | nil => exact absurd rfl hne
  | cons r rs => rfl

/-- Closed-form instance of `torch_multihot_representation`: the boundary
tensor of the 3-row example batch starts at 0. -/
theorem torch_multihot_representation_witness :
    (startsFrom 0 [[(6 : Int), 9], [2], [18, 9, 16]]).head? = some 0 :=
  (torch_multihot_representation [[(6 : Int), 9], [2], [18, 9, 16]]).2.1
    (by decide)

/-- Modelled from the spec: the serialization boundary (spec §6; the
conversion itself lives in the external inference toolkit): a RaggedColumn
crossing a process boundary travels as two independently named flat
numeric arrays — the flattened values under `name ++ "__values"` and the
per-row lengths under `name ++ "__nnzs"`, the naming recorded in the
notebook's Triton request for the `genres` column. -/
structure SerializedRagged where
  valuesName : String
  valuesArr : List Int
  nnzsName : String
  nnzsArr : List Nat
deriving Repr, DecidableEq

/-- Modelled from the spec: transmit a ragged field as the two named flat
arrays (spec §6). -/
def serializeRagged (name : String) (rows : List (List Int)) :
    SerializedRagged :=
  { valuesName := name ++ "__values", valuesArr := rows.flatten,
    nnzsName := name ++ "__nnzs", nnzsArr := rows.map List.length }

/-- Running prefix sums of the transmitted per-row lengths, starting at
`start`: the receiver's reconstruction of the offsets. -/
def offsetsOfLengths (start : Nat) : List Nat → List Nat
  | [] => [start]
  | n :: ns => start :: offsetsOfLengths (start + n) ns

/-- Modelled from the spec: the receiving side reconstructs the
RaggedColumn per §3 invariants from the two transmitted arrays. -/
def deserializeRagged (s : SerializedRagged) : RaggedColumn :=
  { values := s.valuesArr, offsets := offsetsOfLengths 0 s.nnzsArr }

theorem offsetsOfLengths_map_length (start : Nat) (rows : List (List Int)) :
    offsetsOfLengths start (rows.map List.length) = offsetsFrom start rows := by
  induction rows generalizing start with
  | nil => rfl
  | cons r rs ih => simp [offsetsOfLengths, offsetsFrom, List.map_cons, ih]

theorem deserialize_serialize (name : String) (rows : List (List Int)) :
    deserializeRagged (serializeRagged name rows) = encode rows := by
  simp [deserializeRagged, serializeRagged, encode, offsetsOfLengths_map_length]

/-- C6: A RaggedColumn crossing a process boundary is transmitted as
exactly two independently named flat numeric arrays — one suffixed
`__values` and one suffixed `__nnzs` (lengths) — and the pair the receiver
reconstructs satisfies the §3 RaggedColumn invariants (so it decodes back
to the original rows).  The concrete conjuncts reproduce the Triton
response recorded in the notebook: `genres__values = [9,10,16,12,6]`,
`genres__nnzs = [3,1,1]`. -/
theorem serialization_boundary (name : String) (rows : List (List Int)) :
    (serializeRagged name rows).valuesName = name ++ "__values" ∧
    (serializeRagged name rows).nnzsName = name ++ "__nnzs" ∧
    offsetsValid rows.length (deserializeRagged (serializeRagged name rows)) =
      true ∧
    decode rows.length (deserializeRagged (serializeRagged name rows)) =
      .ok rows ∧
    (serializeRagged "genres" [[(9 : Int), 10, 16], [12], [6]]).valuesName ≠
      (serializeRagged "genres" [[(9 : Int), 10, 16], [12], [6]]).nnzsName ∧
    (serializeRagged "genres" [[(9 : Int), 10, 16], [12], [6]]).valuesArr =
      [9, 10, 16, 12, 6] ∧
    (serializeRagged "genres" [[(9 : Int), 10, 16], [12], [6]]).nnzsArr =
      [3, 1, 1] := by
  refine ⟨rfl, rfl, ?_, ?_, by decide, rfl, rfl⟩
  · rw [deserialize_serialize]
    exact offsetsValid_encode rows
  · rw [deserialize_serialize, decode, if_pos (offsetsValid_encode rows)]
    exact congrArg Except.ok (decodeLoop_encode rows)

/-- Modelled from the spec: the Batch Assembler's column configuration
(spec §4.3): which input columns are fixed-arity categorical, ragged
categorical, numeric, and which single column is the label — exactly one
label column is permitted per batch. -/
structure SchemaConfig where
  catCols : List String
  raggedCols : List String
  numCols : List String
  labelCol : String

/-- Modelled from the spec: the underlying row source (spec §6): the
per-column raw data supplied by one pull from the dataset source; a column
absent from the source yields `none`. -/
structure RowSource where
  catData : String → Option (List Int)
  raggedData : String → Option (List (List Int))
  numData : String → Option (List (List Int))
  labelData : String → Option (List Int)

/-- Modelled from the spec: a Batch (spec §4.3): a mapping from
fixed-arity column name to a sequence of B integers, from ragged column
name to its RaggedColumn, a mapping from numeric column name to its B
vectors, and the single label column. -/
structure Batch where
  cats : List (String × List Int)
  raggeds : List (String × RaggedColumn)
  nums : List (String × List (List Int))
  labelName : String
  labels : List Int

/-- Look up every declared column name in a column source, failing as soon
as one is absent. -/
def lookupAll {α : Type} (f : String → Option α) :
    List String → Option (List (String × α))
  | [] => some []
  | n :: ns =>
    match f n, lookupAll f ns with
    | some v, some rest => some ((n, v) :: rest)
    | _, _ => none

/-- Modelled from the spec: the Batch Assembler (spec §4.3, external to
the repository's source): looks up every declared column, checks that all
row counts agree (each column's count must equal the label column's
count), and produces the full Batch; otherwise fails with
`SchemaMismatch` and produces nothing. -/
def assemble (cfg : SchemaConfig) (src : RowSource) :
    Except CodecError Batch :=
  match lookupAll src.catData cfg.catCols,
      lookupAll src.raggedData cfg.raggedCols,
      lookupAll src.numData cfg.numCols,
      src.labelData cfg.labelCol with
  | some cats, some rags, some nums, some labels =>
    if cats.all (fun p => p.2.length == labels.length) &&
        rags.all (fun p => p.2.length == labels.length) &&
        nums.all (fun p => p.2.length == labels.length)
    then .ok { cats := cats,
               raggeds := rags.map (fun p => (p.1, encode p.2)),
               nums := nums,
               labelName := cfg.labelCol,
               labels := labels }
    else .error .SchemaMismatch
  | _, _, _, _ => .error .SchemaMismatch

theorem lookupAll_none {α : Type} (f : String → Option α)
    (ns : List String) (n : String) (hn : n ∈ ns) (hf : f n = none) :
    lookupAll f ns = none := by
  induction ns with
  | nil => simp at hn
  | cons m ms ih =>
    rcases List.mem_cons.mp hn with h | h
    · subst h
      simp only [lookupAll, hf]
    · rw [lookupAll, ih h]
      cases f m <;> rfl

theorem lookupAll_map_fst {α : Type} (f : String → Option α) :
    ∀ (ns : List String) (l : List (String × α)),
      lookupAll f ns = some l → l.map Prod.fst = ns := by
  intro ns
  induction ns with
  | nil => intro l hl; cases hl; rfl
  | cons m ms ih =>
    intro l hl
    rw [lookupAll] at hl
    cases hm : f m with
    | none => rw [hm] at hl; cases hl
    | some w =>
      rw [hm] at hl
      cases hrest : lookupAll f ms with
      | none => rw [hrest] at hl; cases hl
      | some rest =>
        rw [hrest] at hl
        cases hl
        simp [ih rest hrest]

theorem lookupAll_mem {α : Type} (f : String → Option α) :
    ∀ (ns : List String) (l : List (String × α)),
      lookupAll f ns = some l →
      ∀ n v, n ∈ ns → f n = some v → (n, v) ∈ l := by
  intro ns
  induction ns with
  | nil => intro l _ n v hn; simp at hn
  | cons m ms ih =>
    intro l hl n v hn hv
    rw [lookupAll] at hl
    cases hm : f m with
    | none => rw [hm] at hl; cases hl
    | some w =>
      rw [hm] at hl
      cases hrest : lookupAll f ms with
      | none => rw [hrest] at hl; cases hl
      | some rest =>
        rw [hrest] at hl
        cases hl
        rcases List.mem_cons.mp hn with h | h
        · subst h
          rw [hv] at hm
          cases hm
          exact List.mem_cons_self _ _
        · exact List.mem_cons_of_mem _ (ih rest hrest n v h hv)

theorem assemble_cases (cfg : SchemaConfig) (src : RowSource) :
    assemble cfg src = .error CodecError.SchemaMismatch ∨
    ∃ cats rags nums labels,
      lookupAll src.catData cfg.catCols = some cats ∧
      lookupAll src.raggedData cfg.raggedCols = some rags ∧
      lookupAll src.numData cfg.numCols = some nums ∧
      src.labelData cfg.labelCol = some labels ∧
      (∀ p ∈ cats, (p.2 : List Int).length = labels.length) ∧
      (∀ p ∈ rags, (p.2 : List (List Int)).length = labels.length) ∧
      (∀ p ∈ nums, (p.2 : List (List Int)).length = labels.length) ∧
      assemble cfg src =
        .ok { cats := cats,
              raggeds := rags.map (fun p => (p.1, encode p.2)),
              nums := nums,
              labelName := cfg.labelCol,
              labels := labels } := by
  unfold assemble
  cases hcat : lookupAll src.catData cfg.catCols with
  | none => exact Or.inl rfl
  | some cats =>
    cases hrag : lookupAll src.raggedData cfg.raggedCols with
    | none => exact Or.inl rfl
    | some rags =>
      cases hnum : lookupAll src.numData cfg.numCols with
      | none => exact Or.inl rfl
      | some nums =>
        cases hlab : src.labelData cfg.labelCol with
        | none => exact Or.inl rfl
        | some labels =>
          by_cases hcond :
              ((cats.all fun p => p.2.length == labels.length) &&
               (rags.all fun p => p.2.length == labels.length) &&
               (nums.all fun p => p.2.length == labels.length)) = true
          · refine Or.inr ⟨cats, rags, nums, labels, rfl, rfl, rfl, rfl,
              ?_, ?_, ?_, ?_⟩
            · intro p hp
              have := hcond
              simp only [Bool.and_eq_true, List.all_eq_true, beq_iff_eq]
                at this
              exact this.1.1 p hp
            · intro p hp
              have := hcond
              simp only [Bool.and_eq_true, List.all_eq_true, beq_iff_eq]
                at this
              exact this.1.2 p hp
            · intro p hp
              have := hcond
              simp only [Bool.and_eq_true, List.all_eq_true, beq_iff_eq]
                at this
              exact this.2 p hp
            · show (if _ then _ else _) = _
              rw [if_pos hcond]
          · refine Or.inl ?_
            show (if _ then _ else _) = _
            rw [if_neg hcond]

/-- C8: The Batch Assembler fails with `SchemaMismatch` if any declared
column is absent from the underlying row source or if row counts across
columns disagree (a fixed-arity categorical, ragged, or numeric column
whose count differs from the label column's count); when it fails, it
produces no Batch at all (the only failure result is the `SchemaMismatch`
error, never a partial Batch), and every produced Batch carries all
declared columns, with agreeing row counts, and exactly one label column
(the configured one). -/
theorem assemble_schema (cfg : SchemaConfig) (src : RowSource) :
    (((∃ n ∈ cfg.catCols, src.catData n = none) ∨
      (∃ n ∈ cfg.raggedCols, src.raggedData n = none) ∨
      (∃ n ∈ cfg.numCols, src.numData n = none) ∨
      src.labelData cfg.labelCol = none) →
      assemble cfg src = .error CodecError.SchemaMismatch) ∧
    (∀ n v ls, n ∈ cfg.catCols → src.catData n = some v →
      src.labelData cfg.labelCol = some ls → v.length ≠ ls.length →
      assemble cfg src = .error CodecError.SchemaMismatch) ∧
    (∀ n v ls, n ∈ cfg.raggedCols → src.raggedData n = some v →
      src.labelData cfg.labelCol = some ls → v.length ≠ ls.length →
      assemble cfg src = .error CodecError.SchemaMismatch) ∧
    (∀ n v ls, n ∈ cfg.numCols → src.numData n = some v →
      src.labelData cfg.labelCol = some ls → v.length ≠ ls.length →
      assemble cfg src = .error CodecError.SchemaMismatch) ∧
    (∀ e, assemble cfg src = .error e → e = CodecError.SchemaMismatch) ∧
    (∀ b, assemble cfg src = .ok b →
      b.cats.map Prod.fst = cfg.catCols ∧
      b.raggeds.map Prod.fst = cfg.raggedCols ∧
      b.nums.map Prod.fst = cfg.numCols ∧
      b.labelName = cfg.labelCol ∧
      (∀ p ∈ b.cats, (p.2 : List Int).length = b.labels.length) ∧
      (∀ p ∈ b.raggeds,
        (p.2 : RaggedColumn).offsets.length = b.labels.length + 1) ∧
      (∀ p ∈ b.nums,
        (p.2 : List (List Int)).length = b.labels.length)) := by
  refine ⟨?_, ?_, ?_, ?_, ?_, ?_⟩
  · rintro (⟨n, hn, hf⟩ | ⟨n, hn, hf⟩ | ⟨n, hn, hf⟩ | hf)
    · unfold assemble
      rw [lookupAll_none src.catData cfg.catCols n hn hf]
    · unfold assemble
      rw [lookupAll_none src.raggedData cfg.raggedCols n hn hf]
      cases lookupAll src.catData cfg.catCols <;> rfl
    · unfold assemble
      rw [lookupAll_none src.numData cfg.numCols n hn hf]
      cases lookupAll src.catData cfg.catCols <;>
        cases lookupAll src.raggedData cfg.raggedCols <;> rfl
    · unfold assemble
      rw [hf]
      cases lookupAll src.catData cfg.catCols <;>
        cases lookupAll src.raggedData cfg.raggedCols <;>
        cases lookupAll src.numData cfg.numCols <;> rfl
  · intro n v ls hn hv hls hne
    rcases assemble_cases cfg src with h | ⟨cats, rags, nums, labels,
      hcat, _, _, hlab, hcnt, _, _, _⟩
    · exact h
    · exfalso
      rw [hls] at hlab
      cases hlab
      exact hne (hcnt (n, v) (lookupAll_mem src.catData cfg.catCols cats
        hcat n v hn hv))
  · intro n v ls hn hv hls hne
    rcases assemble_cases cfg src with h | ⟨cats, rags, nums, labels,
      _, hrag, _, hlab, _, hragcnt, _, _⟩
    · exact h
    · exfalso
      rw [hls] at hlab
      cases hlab
      exact hne (hragcnt (n, v) (lookupAll_mem src.raggedData
        cfg.raggedCols rags hrag n v hn hv))
  · intro n v ls hn hv hls hne
    rcases assemble_cases cfg src with h | ⟨cats, rags, nums, labels,
      _, _, hnum, hlab, _, _, hnumcnt, _⟩
    · exact h
    · exfalso
      rw [hls] at hlab
      cases hlab
      exact hne (hnumcnt (n, v) (lookupAll_mem src.numData cfg.numCols
        nums hnum n v hn hv))
  · intro e he
    rcases assemble_cases cfg src with h | ⟨_, _, _, _, _, _, _, _, _, _,
      _, hok⟩
    · have := h.symm.trans he
      exact (Except.error.inj this).symm
    · rw [hok] at he
      cases he
  · intro b hb
    rcases assemble_cases cfg src with h | ⟨cats, rags, nums, labels,
      hcat, hrag, hnum, _, hcnt, hragcnt, hnumcnt, hok⟩
    · rw [h] at hb
      cases hb
    · rw [hok] at hb
      cases hb
      refine ⟨lookupAll_map_fst src.catData cfg.catCols cats hcat, ?_,
        lookupAll_map_fst src.numData cfg.numCols nums hnum, rfl, hcnt,
        ?_, hnumcnt⟩
      · rw [List.map_map]
        exact lookupAll_map_fst src.raggedData cfg.raggedCols rags hrag
      · intro p hp
        rcases List.mem_map.mp hp with ⟨q, hq, rfl⟩
        show (encode q.2).offsets.length = labels.length + 1
        rw [show (encode q.2).offsets = offsetsFrom 0 q.2 from rfl,
          offsetsFrom_length, hragcnt q hq]

/-- Fixed column configuration of the MovieLens notebooks: single-hot
movieId and userId, multi-hot genres, label rating. -/
def demoConfig : SchemaConfig :=
  { catCols := ["movieId", "userId"], raggedCols := ["genres"],
    numCols := [], labelCol := "rating" }

/-- A 3-row source with the column values recorded in the Triton
notebook. -/
def demoSource : RowSource :=
  { catData := fun n =>
      if n = "movieId" then some [19997, 2543, 1557]
      else if n = "userId" then some [99476, 107979, 155372]
      else none,
    raggedData := fun n =>
      if n = "genres" then some [[9, 10, 16], [12], [6]] else none,
    numData := fun _ => none,
    labelData := fun n => if n = "rating" then some [1, 0, 1] else none }

/-- The batch assembled from `demoSource` under `demoConfig`. -/
def demoBatch : Batch :=
  { cats := [("movieId", [19997, 2543, 1557]),
             ("userId", [99476, 107979, 155372])],
    raggeds := [("genres", { values := [9, 10, 16, 12, 6],
                             offsets := [0, 3, 4, 5] })],
    nums := [],
    labelName := "rating",
    labels := [1, 0, 1] }

/-- Closed-form instance of `assemble_schema`: the demo batch carries the
declared columns and the single configured label column. -/
theorem assemble_schema_witness :
    demoBatch.cats.map Prod.fst = demoConfig.catCols ∧
    demoBatch.labelName = demoConfig.labelCol :=
  have h := (assemble_schema demoConfig demoSource).2.2.2.2.2 demoBatch rfl
  ⟨h.1, h.2.2.2.1⟩

/-- C9: The codec is deterministic: any two invocations of the encoder,
the decoder, or the Batch Assembler on the same input produce identical
results — the identical Batch on success, the identical failure on
error. -/
theorem codec_deterministic (B : Nat) (rows rows' : List (List Int))
    (c c' : RaggedColumn) (cfg cfg' : SchemaConfig) (src src' : RowSource)
    (h1 : rows = rows') (h2 : c = c') (h3 : cfg = cfg') (h4 : src = src') :
    encodeChecked B rows = encodeChecked B rows' ∧
    decode B c = decode B c' ∧
    assemble cfg src = assemble cfg' src' := by
  subst h1; subst h2; subst h3; subst h4
  exact ⟨rfl, rfl, rfl⟩

/-- Closed-form instance of `codec_deterministic` at the example batch and
the demo schema. -/
theorem codec_deterministic_witness :
    decode 3 (encode [[(6 : Int), 9], [2], [18, 9, 16]]) =
      decode 3 (encode [[(6 : Int), 9], [2], [18, 9, 16]]) :=
  (codec_deterministic 3 [[(6 : Int), 9], [2], [18, 9, 16]]
    [[(6 : Int), 9], [2], [18, 9, 16]]
    (encode [[(6 : Int), 9], [2], [18, 9, 16]])
    (encode [[(6 : Int), 9], [2], [18, 9, 16]])
    demoConfig demoConfig demoSource demoSource rfl rfl rfl rfl).2.1

end RaggedCodec
